import Mathlib

/-!
Verification of the flexUI backend doc-catalog service
(controllers/docController.js and routes/docRoutes.js) against its
natural-language specification.

The relational store (Sequelize over SQL) is shallowly embedded as lists of
rows; each controller function becomes a Lean function on an explicit
`Store`.  JavaScript-specific behaviour that the controller relies on is
modelled explicitly where it matters:
  - `parentId || null` : a falsy number (0) or an absent field collapses to
    null (`jsOrNull`);
  - `Array.isArray(codes)` : a missing or non-array `codes` value skips
    snippet creation (`CodesField.notArr`);
  - object keys and `Object.values` enumeration order for the grouping
    endpoint (all keys are canonical numeric strings, so they are
    enumerated in ascending numeric order, not insertion order).
-/

namespace FlexUI

/-- A Category row: id, display name, URL-safe slug. -/
structure Category where
  id : Nat
  categoryName : String
  slug : String
  deriving DecidableEq

/-- A Code row: a language-tagged snippet owned by one Doc. -/
structure Code where
  id : Nat
  language : String
  code : String
  docId : Nat
  deriving DecidableEq

/-- A Doc row.  `parentId = none` marks a main doc; a non-null `parentId`
marks a UI variant of that parent. -/
structure Doc where
  id : Nat
  uiName : String
  uiSubtitle : String
  docs : String
  uniqueSlug : String
  categoryId : Option Nat
  parentId : Option Nat
  deriving DecidableEq

/-- The relational store: the three tables plus the next auto-increment
values for the two tables the controller inserts into. -/
structure Store where
  docs : List Doc
  codes : List Code
  categories : List Category
  nextDocId : Nat
  nextCodeId : Nat
  deriving DecidableEq

/-- Store sanity: auto-increment counters are ahead of every stored row
(this is what a real auto-increment column guarantees). -/
def Store.WF (s : Store) : Prop :=
  (∀ d ∈ s.docs, d.id < s.nextDocId) ∧
    (∀ c ∈ s.codes, c.docId < s.nextDocId ∧ c.id < s.nextCodeId)

instance (s : Store) : Decidable s.WF := by
  unfold Store.WF; infer_instance

/-- `Doc.findByPk(id)`. -/
def findByPkDoc (s : Store) (id : Nat) : Option Doc :=
  s.docs.find? (fun d => d.id == id)

/-- The Code rows of a Doc (the `codes` include with no language filter). -/
def codesFor (s : Store) (did : Nat) : List Code :=
  s.codes.filter (fun c => c.docId == did)

/-- The Category include restricted to attributes categoryName and slug,
as used by getDocs / getDocById / createDoc / createVariant /
getDocByUniqueSlug. -/
structure CatSlim where
  categoryName : String
  slug : String
  deriving DecidableEq

/-- Left-join lookup of the owning category, projected to CatSlim. -/
def catSlimFor (s : Store) (cid : Option Nat) : Option CatSlim :=
  cid.bind fun c =>
    (s.categories.find? (fun k => k.id == c)).map fun k =>
      ⟨k.categoryName, k.slug⟩

/-- A variant doc as eager-loaded inside the `uiVariants` include: the full
row together with its own codes. -/
structure VariantView where
  doc : Doc
  codes : List Code
  deriving DecidableEq

/-- The uiVariants include: docs whose parentId is the given id, each with
its own codes. -/
def variantsFor (s : Store) (did : Nat) : List VariantView :=
  (s.docs.filter (fun d => d.parentId == some did)).map fun d =>
    ⟨d, codesFor s d.id⟩

/-- The eager-loaded shape returned by getDocs / getDocById /
getDocByUniqueSlug: the row plus codes, slim category and variants. -/
structure FullView where
  doc : Doc
  codes : List Code
  category : Option CatSlim
  uiVariants : List VariantView
  deriving DecidableEq

def fullViewOf (s : Store) (d : Doc) : FullView :=
  ⟨d, codesFor s d.id, catSlimFor s d.categoryId, variantsFor s d.id⟩

/-- GET /  (getDocs): all main docs (parentId null) with codes, slim
category and variants, ordered by id ascending.  A 200 JSON array. -/
def getDocs (s : Store) : List FullView :=
  (((s.docs.filter (fun d => d.parentId == none)).insertionSort
      (fun a b => a.id ≤ b.id)).map (fullViewOf s))

/-- GET /:id  (getDocById): `none` is rendered as 404 with message
"Doc not found", `some v` as 200 with the eager-loaded doc. -/
def getDocById (s : Store) (id : Nat) : Option FullView :=
  (findByPkDoc s id).map (fullViewOf s)

/-- One entry of the `codes` array of a create payload. -/
structure CodeEntry where
  language : String
  code : String
  deriving DecidableEq

/-- The `codes` field of a request body as the controller sees it:
either an actual array, or anything for which `Array.isArray` is false
(absent, null, a string, an object ...). -/
inductive CodesField where
  | arr : List CodeEntry → CodesField
  | notArr : CodesField
  deriving DecidableEq

/-- The request body of POST /createDoc and POST /createVariant/:id.
`parentId` models a JSON number or an absent/null field; createVariant
never reads it. -/
structure CreatePayload where
  uiName : String
  uiSubtitle : String
  docs : String
  codes : CodesField
  parentId : Option Nat
  categoryId : Option Nat
  deriving DecidableEq

/-- JavaScript `parentId || null`: the number 0 is falsy, so it collapses
to null exactly like an absent or null field. -/
def jsOrNull (p : Option Nat) : Option Nat :=
  match p with
  | some n => if n = 0 then none else some n
  | none => none

/-- Modelled from the spec: the Doc model (models/, not under src/)
auto-generates `uniqueSlug` when none is supplied.  The controller never
passes a slug to `Doc.create`, so every created row gets an auto-generated
slug; the spec fixes no concrete generation scheme, so any function of the
row's data is a faithful model.  We use the uiName itself. -/
def autoSlug (uiName : String) : String :=
  uiName

/-- `Doc.create`: appends a row under the next auto-increment id. -/
def storeCreateDoc (s : Store) (uiName uiSubtitle docs : String)
    (parentId categoryId : Option Nat) : Store × Doc :=
  let d : Doc :=
    ⟨s.nextDocId, uiName, uiSubtitle, docs, autoSlug uiName, categoryId,
      parentId⟩
  ({ s with docs := s.docs ++ [d], nextDocId := s.nextDocId + 1 }, d)

/-- `Code.create`: appends a snippet row under the next auto-increment id. -/
def storeCreateCode (s : Store) (language code : String) (docId : Nat) :
    Store :=
  { s with
    codes := s.codes ++ [⟨s.nextCodeId, language, code, docId⟩],
    nextCodeId := s.nextCodeId + 1 }

/-- The `for (const codeEntry of codes) await Code.create(...)` loop. -/
def createCodes (s : Store) (docId : Nat) : List CodeEntry → Store
  | [] => s
  | e :: rest => createCodes (storeCreateCode s e.language e.code docId) docId rest

/-- The shape of the re-fetched created doc (codes + slim category, no
variants include). -/
structure CreatedView where
  doc : Doc
  codes : List Code
  category : Option CatSlim
  deriving DecidableEq

def createdViewOf (s : Store) (d : Doc) : CreatedView :=
  ⟨d, codesFor s d.id, catSlimFor s d.categoryId⟩

/-- An HTTP response of the two create endpoints: a status code, an error
message for the 404 case, and the re-fetched created doc for the 201
case. -/
structure CreateResponse where
  status : Nat
  message : Option String
  body : Option CreatedView
  deriving DecidableEq

/-- POST /createDoc  (createDoc): creates the Doc row (`parentId || null`
applied, no check that a parent exists), then one Code row per entry when
`codes` is an array, then re-fetches the doc and answers 201. -/
def createDoc (s : Store) (p : CreatePayload) : Store × CreateResponse :=
  let sd := storeCreateDoc s p.uiName p.uiSubtitle p.docs
    (jsOrNull p.parentId) p.categoryId
  let s2 := match p.codes with
    | .arr l => createCodes sd.1 sd.2.id l
    | .notArr => sd.1
  (s2, ⟨201, none, (findByPkDoc s2 sd.2.id).map (createdViewOf s2)⟩)

/-- POST /createVariant/:id  (createVariant): 404 "Parent doc not found"
when the parent id does not resolve; otherwise identical creation logic
with parentId forced to the route parameter (the body's parentId is never
destructured). -/
def createVariant (s : Store) (parentId : Nat) (p : CreatePayload) :
    Store × CreateResponse :=
  match findByPkDoc s parentId with
  | none => (s, ⟨404, some "Parent doc not found", none⟩)
  | some _ =>
    let sd := storeCreateDoc s p.uiName p.uiSubtitle p.docs
      (some parentId) p.categoryId
    let s2 := match p.codes with
      | .arr l => createCodes sd.1 sd.2.id l
      | .notArr => sd.1
    (s2, ⟨201, none, (findByPkDoc s2 sd.2.id).map (createdViewOf s2)⟩)

/-- The request body of PUT /updateDoc/:id.  A `none` mutable field is an
absent JSON field (Sequelize ignores undefined values in `update`);
`categoryId = some none` is an explicit JSON null.  `parentId` and
`uniqueSlug` may be present in the body but the controller never reads
them. -/
structure UpdatePayload where
  uiName : Option String
  uiSubtitle : Option String
  docs : Option String
  categoryId : Option (Option Nat)
  parentId : Option Nat
  uniqueSlug : Option String
  deriving DecidableEq

/-- `doc.update({ uiName, uiSubtitle, docs, categoryId })`: only the four
destructured fields are written. -/
def applyUpdate (d : Doc) (p : UpdatePayload) : Doc :=
  { d with
    uiName := p.uiName.getD d.uiName
    uiSubtitle := p.uiSubtitle.getD d.uiSubtitle
    docs := p.docs.getD d.docs
    categoryId := p.categoryId.getD d.categoryId }

/-- Persist the update on the row `findByPk` found (the first row with the
given primary key). -/
def updateFirstDoc : List Doc → Nat → UpdatePayload → List Doc
  | [], _, _ => []
  | d :: rest, id, p =>
    if d.id == id then applyUpdate d p :: rest
    else d :: updateFirstDoc rest id p

/-- PUT /updateDoc/:id  (updateDoc): `none` is rendered as 404
"Doc not found", `some d` as 200 with the updated row (no associations
re-fetched). -/
def updateDoc (s : Store) (id : Nat) (p : UpdatePayload) :
    Store × Option Doc :=
  match findByPkDoc s id with
  | none => (s, none)
  | some d =>
    ({ s with docs := updateFirstDoc s.docs id p }, some (applyUpdate d p))

/-- A JSON id value: the real categories carry their numeric id, the
synthetic "Uncategorized" group literally carries the string "0". -/
inductive JsId where
  | num : Nat → JsId
  | str : String → JsId
  deriving DecidableEq

/-- The Category include with attributes id, categoryName and slug, as
used by getUniqueSlugsGrouped and getUniqueSlugsWithCode. -/
structure CatView where
  id : JsId
  categoryName : String
  slug : String
  deriving DecidableEq

/-- Left-join lookup of the owning category, keeping the id attribute. -/
def catViewFor (s : Store) (cid : Option Nat) : Option CatView :=
  cid.bind fun c =>
    (s.categories.find? (fun k => k.id == c)).map fun k =>
      ⟨.num k.id, k.categoryName, k.slug⟩

/-- The fallback group used when a doc has no associated category. -/
def uncategorized : CatView :=
  ⟨.str "0", "Uncategorized", "uncategorized"⟩

/-- A row of the grouped-slugs query: attributes id, uiName, uniqueSlug,
categoryId plus the included category. -/
structure GDoc where
  id : Nat
  uiName : String
  uniqueSlug : String
  categoryId : Option Nat
  category : Option CatView
  deriving DecidableEq

/-- A child entry pushed into a bucket: exactly id, uiName, uniqueSlug and
categoryId. -/
structure GChild where
  id : Nat
  uiName : String
  uniqueSlug : String
  categoryId : Option Nat
  deriving DecidableEq

/-- One bucket of the grouped result. -/
structure GBucket where
  category : CatView
  children : List GChild
  deriving DecidableEq

def toGDoc (s : Store) (d : Doc) : GDoc :=
  ⟨d.id, d.uiName, d.uniqueSlug, d.categoryId, catViewFor s d.categoryId⟩

def gChildOf (g : GDoc) : GChild :=
  ⟨g.id, g.uiName, g.uniqueSlug, g.categoryId⟩

/-- `docObj.category || uncategorized-default`. -/
def catOrSynth (g : GDoc) : CatView :=
  g.category.getD uncategorized

/-- Lexicographic comparison of char sequences by code point. -/
def charsLeB : List Char → List Char → Bool
  | [], _ => true
  | _ :: _, [] => false
  | c :: cs, d :: ds =>
    if c.toNat < d.toNat then true
    else if d.toNat < c.toNat then false
    else charsLeB cs ds

/-- Lexicographic string comparison (a concrete stand-in for the SQL
collation, which is dialect configuration; no claim depends on the exact
collation, only on the result being some deterministic name order). -/
def strLeB (a b : String) : Bool :=
  charsLeB a.data b.data

/-- Ordering of nullable SQL strings, ASC with NULLs first (the left join
gives NULL categoryName to docs without a category). -/
def optStrLeB (a b : Option String) : Bool :=
  match a, b with
  | none, _ => true
  | some _, none => false
  | some x, some y => strLeB x y

def gNameKey (g : GDoc) : Option String :=
  g.category.map (fun c => c.categoryName)

/-- The flat fetch of getUniqueSlugsGrouped: main docs with minimal
attributes and their category, ordered by the category's name ASC. -/
def sortedGDocs (s : Store) : List GDoc :=
  ((s.docs.filter (fun d => d.parentId == none)).map (toGDoc s)).insertionSort
    (fun a b => optStrLeB (gNameKey a) (gNameKey b) = true)

/-- Decimal digit value of a character. -/
def charDigit (c : Char) : Option Nat :=
  if '0' ≤ c ∧ c ≤ '9' then some (c.toNat - '0'.toNat) else none

/-- Value of a string of decimal digits (none on any non-digit). -/
def parseDigits : List Char → Nat → Option Nat
  | [], acc => some acc
  | c :: rest, acc =>
    match charDigit c with
    | some d => parseDigits rest (acc * 10 + d)
    | none => none

/-- The JS object key used by the reduce is String(cat.id): the numeric
string of the category id, or the literal "0" for the synthetic group.
This is its numeric value (the only non-numeric ids would sort after the
numeric ones; none occur here). -/
def catKey (c : CatView) : Nat :=
  match c.id with
  | .num n => n
  | .str t => (parseDigits t.data 0).getD 0

def gKey (g : GDoc) : Nat :=
  catKey (catOrSynth g)

/-- `acc[key]` update of the reduce: append the child to the existing
bucket for the key, or append a fresh bucket at the end.  The accumulator
models the JS object as an association list in property insertion order. -/
def pushChild (k : Nat) (cat : CatView) (c : GChild) :
    List (Nat × GBucket) → List (Nat × GBucket)
  | [] => [(k, ⟨cat, [c]⟩)]
  | (k', b) :: rest =>
    if k' = k then (k', ⟨b.category, b.children ++ [c]⟩) :: rest
    else (k', b) :: pushChild k cat c rest

/-- One step of `docs.reduce(...)`. -/
def groupStep (acc : List (Nat × GBucket)) (g : GDoc) :
    List (Nat × GBucket) :=
  pushChild (gKey g) (catOrSynth g) (gChildOf g) acc

def groupDocs (l : List GDoc) : List (Nat × GBucket) :=
  l.foldl groupStep []

/-- `Object.values(grouped)`.  Every key of the grouped object is a
canonical numeric string (String(category.id) or "0"), i.e. an array
index, and ECMAScript enumerates such own properties in ascending numeric
order regardless of insertion order.  So the buckets come out sorted by
numeric key, not in first-occurrence order. -/
def objectValuesNumeric (l : List (Nat × GBucket)) : List GBucket :=
  (l.insertionSort (fun a b => a.1 ≤ b.1)).map (fun p => p.2)

/-- GET (grouped slugs endpoint, getUniqueSlugsGrouped): fetch main docs
sorted by category name, group them by category id with an
"Uncategorized" fallback, return the buckets as Object.values sees them. -/
def getUniqueSlugsGrouped (s : Store) : List GBucket :=
  objectValuesNumeric (groupDocs (sortedGDocs s))

/-- The bucket sequence in first-occurrence order of each category in the
sorted input, with no secondary reordering: this is the order the
specification asserts for the grouped output. -/
def groupedFirstOccurrence (s : Store) : List GBucket :=
  (groupDocs (sortedGDocs s)).map (fun p => p.2)

/-- The category a bucket key stands for: key 0 is the synthetic
"Uncategorized" group, any other key is the category row with that id. -/
def specCatFor (s : Store) (k : Nat) : CatView :=
  if k = 0 then uncategorized
  else ((s.categories.find? (fun c => c.id == k)).map (fun c =>
    (⟨.num c.id, c.categoryName, c.slug⟩ : CatView))).getD uncategorized

/-- Declarative description of the grouped-slugs result (the amended
specification): one bucket per distinct category key of the sorted input,
buckets in ascending numeric key order, each bucket holding the
projections of the sorted input docs of that key in input order. -/
def specGroupedSlugs (s : Store) : List GBucket :=
  (((sortedGDocs s).map gKey).dedup.insertionSort (fun a b => a ≤ b)).map
    fun k =>
      ⟨specCatFor s k,
        ((sortedGDocs s).filter (fun g => gKey g == k)).map gChildOf⟩

/-- A snippet row restricted to attributes id, language and code. -/
structure CodeSlim where
  id : Nat
  language : String
  code : String
  deriving DecidableEq

/-- A row of getUniqueSlugsWithCode: minimal doc attributes, the included
category, and the codes include filtered to language "tailwind" with
`required: false` (left join: docs without a matching snippet keep an
empty list). -/
structure DocWithCode where
  id : Nat
  uiName : String
  uniqueSlug : String
  categoryId : Option Nat
  category : Option CatView
  codes : List CodeSlim
  deriving DecidableEq

def tailwindCodesFor (s : Store) (did : Nat) : List CodeSlim :=
  (s.codes.filter (fun c => c.docId == did && c.language == "tailwind")).map
    fun c => ⟨c.id, c.language, c.code⟩

/-- The where-condition built by getUniqueSlugsWithCode: always
`parentId: null`, plus `categoryId` when the query parameter is truthy. -/
def catMatch (cf : Option Nat) (d : Doc) : Bool :=
  match cf with
  | none => true
  | some n => d.categoryId == some n

def docWithCodeView (s : Store) (d : Doc) : DocWithCode :=
  ⟨d.id, d.uiName, d.uniqueSlug, d.categoryId, catViewFor s d.categoryId,
    tailwindCodesFor s d.id⟩

/-- Ordering of nullable categoryId, ASC with NULLs first. -/
def optNatLeB (a b : Option Nat) : Bool :=
  match a, b with
  | none, _ => true
  | some _, none => false
  | some x, some y => x ≤ y

/-- GET (unique-slugs-with-code endpoint, getUniqueSlugsWithCode): main
docs, optionally restricted to one categoryId, ordered by categoryId ASC,
each with its "tailwind" snippets (left join, possibly empty). -/
def getUniqueSlugsWithCode (s : Store) (categoryId : Option Nat) :
    List DocWithCode :=
  (((s.docs.filter (fun d => d.parentId == none && catMatch categoryId d)
      ).insertionSort
        (fun a b => optNatLeB a.categoryId b.categoryId = true)).map
    (docWithCodeView s))

/-- The controller functions, as referenced by name in module.exports and
in the router bindings. -/
inductive Handler where
  | hGetDocs
  | hGetDocById
  | hCreateDoc
  | hUpdateDoc
  | hDeleteDoc
  | hCreateVariant
  | hGetDocByUniqueSlug
  | hGetUniqueSlugsGrouped
  | hGetUniqueSlugsWithCode
  deriving DecidableEq

/-- module.exports of controllers/docController.js: the exported name of
the grouped-slugs handler is "getUniqueSlugsGrouped". -/
def controllerExports : List (String × Handler) :=
  [("getDocs", .hGetDocs),
   ("getDocById", .hGetDocById),
   ("createDoc", .hCreateDoc),
   ("updateDoc", .hUpdateDoc),
   ("deleteDoc", .hDeleteDoc),
   ("createVariant", .hCreateVariant),
   ("getDocByUniqueSlug", .hGetDocByUniqueSlug),
   ("getUniqueSlugsGrouped", .hGetUniqueSlugsGrouped),
   ("getUniqueSlugsWithCode", .hGetUniqueSlugsWithCode)]

/-- `require("../controllers/docController")` destructuring: a name that
is not exported yields undefined (`none`). -/
def importedHandler (n : String) : Option Handler :=
  (controllerExports.find? (fun p => p.1 == n)).map (fun p => p.2)

/-- One segment of an Express route pattern. -/
inductive Seg where
  | lit : String → Seg
  | par : String → Seg
  deriving DecidableEq

/-- A registered route: method, pattern, and the handler value the routes
file bound (undefined when the imported name does not exist). -/
structure Route where
  methd : String
  pattern : List Seg
  handler : Option Handler
  deriving DecidableEq

/-- routes/docRoutes.js in registration order.  The file imports
`getUniqueSlugs`, a name the controller does not export. -/
def docRoutes : List Route :=
  [⟨"GET", [], importedHandler "getDocs"⟩,
   ⟨"GET", [.par "id"], importedHandler "getDocById"⟩,
   ⟨"POST", [.lit "createDoc"], importedHandler "createDoc"⟩,
   ⟨"PUT", [.lit "updateDoc", .par "id"], importedHandler "updateDoc"⟩,
   ⟨"DELETE", [.lit "deleteDoc", .par "id"], importedHandler "deleteDoc"⟩,
   ⟨"GET", [.lit "getDocByUniqueSlug", .par "uniqueSlug"],
     importedHandler "getDocByUniqueSlug"⟩,
   ⟨"GET", [.lit "unique-slugs"], importedHandler "getUniqueSlugs"⟩,
   ⟨"POST", [.lit "createVariant", .par "id"],
     importedHandler "createVariant"⟩]

/-- Express pattern matching: same number of segments, literals equal,
a parameter segment matches any segment. -/
def matchPat : List Seg → List String → Bool
  | [], [] => true
  | .lit t :: ps, x :: xs => t == x && matchPat ps xs
  | .par _ :: ps, _ :: xs => matchPat ps xs
  | _, _ => false

/-- Express dispatches a request to the first registered route whose
method and pattern match. -/
def dispatch (m : String) (path : List String) : Option Route :=
  docRoutes.find? (fun r => r.methd == m && matchPat r.pattern path)

/-- The Code rows the snippet-creation loop of createDoc and createVariant
inserts: consecutive ids from `start`, all owned by `did`, language and
code taken verbatim from the payload entries. -/
def mkCodes (start did : Nat) : List CodeEntry → List Code
  | [] => []
  | e :: rest => ⟨start, e.language, e.code, did⟩ :: mkCodes (start + 1) did rest

/-- Key lookup in the association-list model of the grouped JS object. -/
def lookupB (l : List (Nat × GBucket)) (k : Nat) : Option GBucket :=
  (l.find? (fun q => q.1 == k)).map (fun q => q.2)

/-- The children a run of the reduce contributes to the bucket of key `k`:
the projections of the input docs of that key, in input order. -/
def childrenOf (l : List GDoc) (k : Nat) : List GChild :=
  (l.filter (fun g => gKey g == k)).map gChildOf

/-- A small well-formed store used by witnesses and the C1
counterexample: two categories whose name order (Alpha before Zeta)
reverses their id order (1 before 2), three main docs (one of them
uncategorized), one variant, three snippets. -/
def wStore : Store :=
  { docs := [⟨1, "Button", "Primary", "# b", "button", some 1, none⟩,
             ⟨2, "Card", "Basic", "# c", "card", some 2, none⟩,
             ⟨3, "Loose", "NoCat", "# l", "loose", none, none⟩,
             ⟨4, "ButtonGhost", "Ghost", "# g", "button-ghost", some 1,
               some 1⟩],
    codes := [⟨1, "tailwind", "tw-b", 1⟩, ⟨2, "jsx", "jsx-b", 1⟩,
              ⟨3, "css", "css-g", 4⟩],
    categories := [⟨1, "Zeta", "zeta"⟩, ⟨2, "Alpha", "alpha"⟩],
    nextDocId := 5, nextCodeId := 4 }

/-- A create payload used by the witnesses; its parentId 99 resolves to no
stored doc. -/
def wPayload : CreatePayload :=
  ⟨"Modal", "Dialog", "# m",
    .arr [⟨"jsx", "jsx-m"⟩, ⟨"tailwind", "tw-m"⟩], some 99, some 2⟩

/- ------------------------------------------------------------------ -/
/- Helper lemmas                                                       -/
/- ------------------------------------------------------------------ -/

theorem find?_append_left_nil {α : Type} (p : α → Bool) (l₁ l₂ : List α)
    (h : ∀ a ∈ l₁, p a = false) :
    (l₁ ++ l₂).find? p = l₂.find? p := by
  induction l₁ with
  | nil => rfl
  | cons a l ih =>
    have ha := h a (List.mem_cons_self a l)
    simp only [List.cons_append, List.find?, ha]
    exact ih fun x hx => h x (List.mem_cons_of_mem a hx)

theorem createCodes_eq (did : Nat) (l : List CodeEntry) : ∀ s : Store,
    createCodes s did l =
      { s with
        codes := s.codes ++ mkCodes s.nextCodeId did l,
        nextCodeId := s.nextCodeId + l.length } := by
  induction l with
  | nil => intro s; simp [createCodes, mkCodes]
  | cons e rest ih =>
    intro s
    rw [createCodes, storeCreateCode, ih]
    simp [mkCodes]
    omega

theorem mkCodes_filter_self (did : Nat) (l : List CodeEntry) : ∀ start,
    (mkCodes start did l).filter (fun c => c.docId == did) =
      mkCodes start did l := by
  induction l with
  | nil => intro start; rfl
  | cons e rest ih => intro start; simp [mkCodes, ih]

theorem mkCodes_map_langCode (did : Nat) (l : List CodeEntry) : ∀ start,
    (mkCodes start did l).map (fun c => (c.language, c.code)) =
      l.map (fun e => (e.language, e.code)) := by
  induction l with
  | nil => intro start; rfl
  | cons e rest ih => intro start; simp [mkCodes, ih]

theorem codes_filter_fresh (s : Store) (hWF : s.WF) :
    s.codes.filter (fun c => c.docId == s.nextDocId) = [] := by
  refine List.filter_eq_nil_iff.mpr fun c hc => ?_
  have := (hWF.2 c hc).1
  simp only [beq_iff_eq]
  omega

theorem find?_docs_fresh (l : List Doc) (n : Nat) (h : ∀ d ∈ l, d.id < n)
    (d : Doc) (hd : d.id = n) :
    (l ++ [d]).find? (fun x => x.id == n) = some d := by
  rw [find?_append_left_nil]
  · simp [List.find?, hd]
  · intro a ha
    have := h a ha
    simp only [beq_eq_false_iff_ne, ne_eq]
    omega

theorem updateFirstDoc_frame (id : Nat) (p : UpdatePayload) :
    ∀ l : List Doc,
      List.Forall₂
        (fun a b => b.id = a.id ∧ b.parentId = a.parentId ∧
          b.uniqueSlug = a.uniqueSlug) l (updateFirstDoc l id p) := by
  intro l
  induction l with
  | nil => exact List.Forall₂.nil
  | cons dd rest ih =>
    rw [updateFirstDoc]
    by_cases hdd : (dd.id == id) = true
    · rw [if_pos hdd]
      exact List.Forall₂.cons (by simp [applyUpdate])
        (List.forall₂_same.mpr fun a _ => ⟨rfl, rfl, rfl⟩)
    · rw [if_neg hdd]
      exact List.Forall₂.cons ⟨rfl, rfl, rfl⟩ ih

theorem optNatLeB_total (a b : Option Nat) :
    optNatLeB a b = true ∨ optNatLeB b a = true := by
  cases a <;> cases b <;> simp [optNatLeB]
  omega

theorem optNatLeB_trans (a b c : Option Nat) (h1 : optNatLeB a b = true)
    (h2 : optNatLeB b c = true) : optNatLeB a c = true := by
  cases a <;> cases b <;> cases c <;> simp [optNatLeB] at *
  omega

theorem tailwindCodes_lang (s : Store) (did : Nat) :
    ∀ c ∈ tailwindCodesFor s did, c.language = "tailwind" := by
  intro c hc
  obtain ⟨c0, hc0, rfl⟩ := List.mem_map.mp hc
  have h := (List.mem_filter.mp hc0).2
  simp only [Bool.and_eq_true, beq_iff_eq] at h
  exact h.2

theorem catKey_uncategorized : catKey uncategorized = 0 := by decide

theorem lookupB_cons_self (k : Nat) (b : GBucket)
    (rest : List (Nat × GBucket)) :
    lookupB ((k, b) :: rest) k = some b := by
  simp [lookupB, List.find?]

theorem lookupB_cons_ne (k' k : Nat) (b : GBucket)
    (rest : List (Nat × GBucket)) (h : k' ≠ k) :
    lookupB ((k', b) :: rest) k = lookupB rest k := by
  have hb : (k' == k) = false := by simpa using h
  simp [lookupB, List.find?, hb]

theorem pushChild_lookup_some (k : Nat) (cat : CatView) (c : GChild)
    (b : GBucket) : ∀ acc, lookupB acc k = some b →
    lookupB (pushChild k cat c acc) k =
      some ⟨b.category, b.children ++ [c]⟩ := by
  intro acc
  induction acc with
  | nil => intro h; simp [lookupB] at h
  | cons q rest ih =>
    obtain ⟨k', b'⟩ := q
    intro h
    simp only [pushChild]
    by_cases hk : k' = k
    · rw [if_pos hk]
      subst hk
      rw [lookupB_cons_self] at h
      injection h with hb
      subst hb
      rw [lookupB_cons_self]
    · rw [if_neg hk, lookupB_cons_ne _ _ _ _ hk]
      rw [lookupB_cons_ne _ _ _ _ hk] at h
      exact ih h

theorem pushChild_lookup_none (k : Nat) (cat : CatView) (c : GChild) :
    ∀ acc, lookupB acc k = none →
    lookupB (pushChild k cat c acc) k = some ⟨cat, [c]⟩ := by
  intro acc
  induction acc with
  | nil =>
    intro _
    simp only [pushChild]
    rw [lookupB_cons_self]
  | cons q rest ih =>
    obtain ⟨k', b'⟩ := q
    intro h
    simp only [pushChild]
    by_cases hk : k' = k
    · rw [if_pos hk]
      subst hk
      rw [lookupB_cons_self] at h
      exact absurd h (by simp)
    · rw [if_neg hk, lookupB_cons_ne _ _ _ _ hk]
      rw [lookupB_cons_ne _ _ _ _ hk] at h
      exact ih h

theorem pushChild_lookup_other (k : Nat) (cat : CatView) (c : GChild)
    (j : Nat) (hj : j ≠ k) : ∀ acc,
    lookupB (pushChild k cat c acc) j = lookupB acc j := by
  intro acc
  induction acc with
  | nil =>
    simp only [pushChild]
    rw [lookupB_cons_ne _ _ _ _ (Ne.symm hj)]
  | cons q rest ih =>
    obtain ⟨k', b'⟩ := q
    simp only [pushChild]
    by_cases hk : k' = k
    · rw [if_pos hk]
      subst hk
      rw [lookupB_cons_ne _ _ _ _ (Ne.symm hj),
        lookupB_cons_ne _ _ _ _ (Ne.symm hj)]
    · by_cases hkj : k' = j
      · rw [if_neg hk]
        subst hkj
        rw [lookupB_cons_self, lookupB_cons_self]
      · rw [if_neg hk, lookupB_cons_ne _ _ _ _ hkj,
          lookupB_cons_ne _ _ _ _ hkj, ih]

theorem pushChild_keys (k : Nat) (cat : CatView) (c : GChild) :
    ∀ acc : List (Nat × GBucket),
    (pushChild k cat c acc).map Prod.fst =
      if k ∈ acc.map Prod.fst then acc.map Prod.fst
      else acc.map Prod.fst ++ [k] := by
  intro acc
  induction acc with
  | nil => simp [pushChild]
  | cons q rest ih =>
    obtain ⟨k', b'⟩ := q
    simp only [pushChild]
    by_cases hk : k' = k
    · rw [if_pos hk]
      subst hk
      simp
    · rw [if_neg hk]
      simp only [List.map_cons, ih]
      by_cases hmem : k ∈ rest.map Prod.fst
      · rw [if_pos hmem, if_pos (by simp [hmem])]
      · rw [if_neg hmem,
          if_neg (by simp [hmem]; exact fun h => hk h.symm)]
        simp

theorem foldl_group_lookup_some (input : List GDoc) :
    ∀ (acc : List (Nat × GBucket)) (b : GBucket) (k : Nat),
    lookupB acc k = some b →
    lookupB (input.foldl groupStep acc) k =
      some ⟨b.category, b.children ++ childrenOf input k⟩ := by
  induction input with
  | nil =>
    intro acc b k h
    simp only [List.foldl_nil, childrenOf, List.filter_nil, List.map_nil,
      List.append_nil]
    exact h
  | cons g rest ih =>
    intro acc b k h
    rw [List.foldl_cons]
    by_cases hk : gKey g = k
    · have h2 : lookupB (groupStep acc g) k =
          some ⟨b.category, b.children ++ [gChildOf g]⟩ := by
        rw [groupStep, hk]
        exact pushChild_lookup_some _ _ _ _ acc h
      rw [ih _ _ _ h2]
      have hch : childrenOf (g :: rest) k = gChildOf g :: childrenOf rest k := by
        simp [childrenOf, List.filter_cons, hk]
      rw [hch]
      simp
    · have h2 : lookupB (groupStep acc g) k = some b := by
        rw [groupStep, pushChild_lookup_other _ _ _ _ (fun e => hk e.symm)]
        exact h
      rw [ih _ _ _ h2]
      have hch : childrenOf (g :: rest) k = childrenOf rest k := by
        simp [childrenOf, List.filter_cons, hk]
      rw [hch]

theorem foldl_group_lookup_none (s : Store) (input : List GDoc)
    (H : ∀ g ∈ input, catOrSynth g = specCatFor s (gKey g)) :
    ∀ (acc : List (Nat × GBucket)) (k : Nat),
    lookupB acc k = none →
    lookupB (input.foldl groupStep acc) k =
      if childrenOf input k = [] then none
      else some ⟨specCatFor s k, childrenOf input k⟩ := by
  induction input with
  | nil =>
    intro acc k h
    simp only [List.foldl_nil, childrenOf, List.filter_nil, List.map_nil,
      if_pos rfl]
    exact h
  | cons g rest ih =>
    intro acc k h
    rw [List.foldl_cons]
    by_cases hk : gKey g = k
    · have h2 : lookupB (groupStep acc g) k =
          some ⟨catOrSynth g, [gChildOf g]⟩ := by
        rw [groupStep, hk]
        exact pushChild_lookup_none _ _ _ acc h
      rw [foldl_group_lookup_some rest _ _ _ h2]
      have hcat : catOrSynth g = specCatFor s k :=
        hk ▸ H g (List.mem_cons_self g rest)
      have hch : childrenOf (g :: rest) k = gChildOf g :: childrenOf rest k := by
        simp [childrenOf, List.filter_cons, hk]
      rw [hch, if_neg (by simp), hcat]
      simp
    · have h2 : lookupB (groupStep acc g) k = none := by
        rw [groupStep, pushChild_lookup_other _ _ _ _ (fun e => hk e.symm)]
        exact h
      rw [ih (fun g' hg' => H g' (List.mem_cons_of_mem g hg')) _ _ h2]
      have hch : childrenOf (g :: rest) k = childrenOf rest k := by
        simp [childrenOf, List.filter_cons, hk]
      rw [hch]

theorem foldl_group_keys_nodup (input : List GDoc) :
    ∀ acc : List (Nat × GBucket),
    (acc.map Prod.fst).Nodup →
      ((input.foldl groupStep acc).map Prod.fst).Nodup := by
  induction input with
  | nil => intro acc h; exact h
  | cons g rest ih =>
    intro acc h
    rw [List.foldl_cons]
    refine ih _ ?_
    rw [groupStep, pushChild_keys]
    by_cases hmem : gKey g ∈ acc.map Prod.fst
    · rw [if_pos hmem]; exact h
    · rw [if_neg hmem]
      exact List.Nodup.append h (List.nodup_singleton _)
        (by simpa [List.disjoint_singleton] using hmem)

theorem lookupB_isSome_iff (l : List (Nat × GBucket)) (k : Nat) :
    (lookupB l k).isSome = true ↔ k ∈ l.map Prod.fst := by
  induction l with
  | nil => simp [lookupB]
  | cons q rest ih =>
    obtain ⟨k', b'⟩ := q
    by_cases hk : k' = k
    · subst hk
      rw [lookupB_cons_self]
      simp
    · rw [lookupB_cons_ne _ _ _ _ hk]
      simp [ih, Ne.symm hk]

theorem childrenOf_ne_nil_iff (l : List GDoc) (k : Nat) :
    childrenOf l k ≠ [] ↔ k ∈ l.map gKey := by
  induction l with
  | nil => simp [childrenOf]
  | cons g rest ih =>
    by_cases hk : gKey g = k
    · have hch : childrenOf (g :: rest) k = gChildOf g :: childrenOf rest k := by
        simp [childrenOf, List.filter_cons, hk]
      simp [hch, hk]
    · have hch : childrenOf (g :: rest) k = childrenOf rest k := by
        simp [childrenOf, List.filter_cons, hk]
      simp [hch, ih, hk, Ne.symm hk]

theorem lookupB_of_mem (l : List (Nat × GBucket))
    (hnd : (l.map Prod.fst).Nodup) (p : Nat × GBucket) (hp : p ∈ l) :
    lookupB l p.1 = some p.2 := by
  induction l with
  | nil => cases hp
  | cons q rest ih =>
    rcases List.mem_cons.mp hp with rfl | hp'
    · obtain ⟨k', b'⟩ := p
      exact lookupB_cons_self k' b' rest
    · obtain ⟨k', b'⟩ := q
      rw [List.map_cons] at hnd
      have hnd' := List.nodup_cons.mp hnd
      have hk : k' ≠ p.1 := by
        intro e
        refine hnd'.1 ?_
        rw [e]
        exact List.mem_map.mpr ⟨p, hp', rfl⟩
      rw [lookupB_cons_ne _ _ _ _ hk]
      exact ih hnd'.2 hp'

theorem orderedInsert_map_fst (q : Nat × GBucket) :
    ∀ l : List (Nat × GBucket),
    (List.orderedInsert (fun a b => a.1 ≤ b.1) q l).map Prod.fst =
      List.orderedInsert (fun a b => a ≤ b) q.1 (l.map Prod.fst) := by
  intro l
  induction l with
  | nil => rfl
  | cons r rest ih =>
    simp only [List.orderedInsert, List.map_cons]
    by_cases h : q.1 ≤ r.1
    · rw [if_pos h, if_pos h]
      simp
    · rw [if_neg h, if_neg h]
      simp [ih]

theorem insertionSort_map_fst : ∀ l : List (Nat × GBucket),
    (l.insertionSort (fun a b => a.1 ≤ b.1)).map Prod.fst =
      (l.map Prod.fst).insertionSort (fun a b => a ≤ b) := by
  intro l
  induction l with
  | nil => rfl
  | cons q rest ih =>
    simp only [List.insertionSort, List.map_cons]
    rw [← ih, orderedInsert_map_fst]

theorem assoc_eq_keys_map (f : Nat → GBucket) :
    ∀ L : List (Nat × GBucket), (∀ p ∈ L, p.2 = f p.1) →
      L = (L.map Prod.fst).map (fun k => (k, f k)) := by
  intro L
  induction L with
  | nil => intro _; rfl
  | cons q rest ih =>
    intro h
    obtain ⟨k', b'⟩ := q
    have h1 : b' = f k' := h (k', b') (List.mem_cons_self _ _)
    rw [List.map_cons, List.map_cons,
      ← ih (fun p hp => h p (List.mem_cons_of_mem _ hp)), h1]

/- ------------------------------------------------------------------ -/
/- Claim theorems                                                      -/
/- ------------------------------------------------------------------ -/

/-- C1 counterexample: the claim asserts the bucket sequence follows
first-occurrence order of each category in the category-name-sorted input
with no secondary reordering (groupedFirstOccurrence).  On wStore the
sorted input runs Uncategorized doc, then Alpha (category id 2), then
Zeta (category id 1), so first-occurrence bucket order is Uncategorized,
Alpha, Zeta — but the code returns Uncategorized, Zeta, Alpha, because
Object.values enumerates the integer-like keys "0", "1", "2" in ascending
numeric order. -/
theorem groupedSlugs_not_firstOccurrence :
    getUniqueSlugsGrouped wStore ≠ groupedFirstOccurrence wStore := by
  decide

/-- C1 (amended): list_grouped_slugs groups the category-name-sorted main
docs into one bucket per distinct category id, synthetic Uncategorized
bucket (key 0) for docs without a category, children projected to
id/uiName/uniqueSlug/categoryId in sorted-input order — but the bucket
sequence is ordered by ascending numeric category id (Uncategorized
first when present), not by first occurrence.  Stated as equality with the
declarative specGroupedSlugs, for every store whose category ids avoid the
sentinel 0 (auto-increment ids start at 1). -/
theorem groupedSlugs_amended (s : Store)
    (h0 : ∀ c ∈ s.categories, c.id ≠ 0) :
    getUniqueSlugsGrouped s = specGroupedSlugs s := by
  have H : ∀ g ∈ sortedGDocs s, catOrSynth g = specCatFor s (gKey g) := by
    intro g hg
    have hg' : g ∈ (s.docs.filter (fun d => d.parentId == none)).map
        (toGDoc s) :=
      (List.perm_insertionSort
        (fun a b => optStrLeB (gNameKey a) (gNameKey b) = true)
        ((s.docs.filter (fun d => d.parentId == none)).map
          (toGDoc s))).mem_iff.mp hg
    obtain ⟨d, _, rfl⟩ := List.mem_map.mp hg'
    cases hcid : d.categoryId with
    | none =>
      simp [toGDoc, catViewFor, hcid, catOrSynth, gKey, catKey_uncategorized,
        specCatFor]
    | some cid =>
      cases hfind : s.categories.find? (fun k => k.id == cid) with
      | none =>
        simp [toGDoc, catViewFor, hcid, hfind, catOrSynth, gKey,
          catKey_uncategorized, specCatFor]
      | some c =>
        have hcmem : c ∈ s.categories := List.mem_of_find?_eq_some hfind
        have hceq : c.id = cid := by simpa using List.find?_some hfind
        subst hceq
        have hc0 : c.id ≠ 0 := h0 c hcmem
        simp [toGDoc, catViewFor, hcid, hfind, catOrSynth, gKey, catKey,
          specCatFor, hc0]
  have hLookup : ∀ k, lookupB (groupDocs (sortedGDocs s)) k =
      if childrenOf (sortedGDocs s) k = [] then none
      else some ⟨specCatFor s k, childrenOf (sortedGDocs s) k⟩ :=
    fun k => foldl_group_lookup_none s (sortedGDocs s) H [] k rfl
  have hNodup : ((groupDocs (sortedGDocs s)).map Prod.fst).Nodup :=
    foldl_group_keys_nodup (sortedGDocs s) [] (by simp)
  have hMem : ∀ k, k ∈ (groupDocs (sortedGDocs s)).map Prod.fst ↔
      k ∈ (sortedGDocs s).map gKey := by
    intro k
    rw [← lookupB_isSome_iff, hLookup k]
    by_cases hc : childrenOf (sortedGDocs s) k = []
    · rw [if_pos hc]
      simp only [Option.isSome_none, Bool.false_eq_true, false_iff]
      intro hmem
      exact (childrenOf_ne_nil_iff _ _).mpr hmem hc
    · rw [if_neg hc]
      simp only [Option.isSome_some, true_iff]
      exact (childrenOf_ne_nil_iff _ _).mp hc
  have hKeysPerm : List.Perm ((groupDocs (sortedGDocs s)).map Prod.fst)
      (((sortedGDocs s).map gKey).dedup) :=
    (List.perm_ext_iff_of_nodup hNodup (List.nodup_dedup _)).mpr
      (fun a => by rw [hMem a, List.mem_dedup])
  have hKeysEq : ((groupDocs (sortedGDocs s)).map Prod.fst).insertionSort
        (fun a b => a ≤ b) =
      (((sortedGDocs s).map gKey).dedup).insertionSort
        (fun a b => a ≤ b) := by
    haveI : IsTotal Nat (fun a b => a ≤ b) := ⟨Nat.le_total⟩
    haveI : IsTrans Nat (fun a b => a ≤ b) :=
      ⟨fun a b c hab hbc => Nat.le_trans hab hbc⟩
    haveI : IsAntisymm Nat (fun a b => a ≤ b) :=
      ⟨fun a b h1 h2 => Nat.le_antisymm h1 h2⟩
    exact @List.eq_of_perm_of_sorted Nat (fun a b => a ≤ b) _ _ _
      (((List.perm_insertionSort _ _).trans hKeysPerm).trans
        (List.perm_insertionSort _ _).symm)
      (List.sorted_insertionSort _ _) (List.sorted_insertionSort _ _)
  have hEach : ∀ p ∈ (groupDocs (sortedGDocs s)).insertionSort
      (fun a b => a.1 ≤ b.1),
      p.2 = (⟨specCatFor s p.1, childrenOf (sortedGDocs s) p.1⟩ :
        GBucket) := by
    intro p hp
    have hpA : p ∈ groupDocs (sortedGDocs s) :=
      (List.perm_insertionSort _ _).mem_iff.mp hp
    have h1 : lookupB (groupDocs (sortedGDocs s)) p.1 = some p.2 :=
      lookupB_of_mem _ hNodup p hpA
    have h3 : childrenOf (sortedGDocs s) p.1 ≠ [] :=
      (childrenOf_ne_nil_iff _ _).mpr
        ((hMem p.1).mp (List.mem_map.mpr ⟨p, hpA, rfl⟩))
    rw [hLookup p.1, if_neg h3] at h1
    injection h1 with h2
    exact h2.symm
  have hAssoc : (groupDocs (sortedGDocs s)).insertionSort
        (fun a b => a.1 ≤ b.1) =
      ((((sortedGDocs s).map gKey).dedup).insertionSort
          (fun a b => a ≤ b)).map
        (fun k => (k, (⟨specCatFor s k, childrenOf (sortedGDocs s) k⟩ :
          GBucket))) := by
    rw [assoc_eq_keys_map
        (fun k => (⟨specCatFor s k, childrenOf (sortedGDocs s) k⟩ : GBucket))
        ((groupDocs (sortedGDocs s)).insertionSort (fun a b => a.1 ≤ b.1))
        hEach,
      insertionSort_map_fst, hKeysEq]
  calc getUniqueSlugsGrouped s
      = ((groupDocs (sortedGDocs s)).insertionSort
          (fun a b => a.1 ≤ b.1)).map (fun p => p.2) := rfl
    _ = (((((sortedGDocs s).map gKey).dedup).insertionSort
            (fun a b => a ≤ b)).map
          (fun k => (k, (⟨specCatFor s k, childrenOf (sortedGDocs s) k⟩ :
            GBucket)))).map (fun p => p.2) := by rw [hAssoc]
    _ = specGroupedSlugs s := by
        rw [List.map_map]
        simp [specGroupedSlugs, childrenOf, Function.comp]

/-- C1 witness for the amended theorem: wStore's category ids are 1 and 2,
and on it the grouped endpoint equals the declarative description. -/
theorem groupedSlugs_amended_witness :
    (∀ c ∈ wStore.categories, c.id ≠ 0) ∧
      getUniqueSlugsGrouped wStore = specGroupedSlugs wStore :=
  ⟨by decide, groupedSlugs_amended wStore (by decide)⟩

/-- C2: the spec's routing table says GET /unique-slugs dispatches to the
grouped-slug listing.  On the code it does not: routes are matched in
registration order and `GET /:id` is registered first, so the request is
captured by getDocById (with id = "unique-slugs"); moreover the handler
the routes file binds to /unique-slugs is the import `getUniqueSlugs`,
which the controller does not export (it exports getUniqueSlugsGrouped),
so that binding is undefined.  This theorem records both divergences. -/
theorem uniqueSlugs_route_bug :
    (dispatch "GET" ["unique-slugs"]).map (fun r => r.handler) =
        some (some Handler.hGetDocById) ∧
      importedHandler "getUniqueSlugs" = none := by
  decide

/-- C3: after create_doc with a codes array, get_doc on the returned id
returns a Doc whose uiName, uiSubtitle, docs and categoryId equal the
inputs, with one Code entry per supplied codes entry, language and code
preserved verbatim and in order. -/
theorem createDoc_then_getDoc (s : Store) (p : CreatePayload)
    (l : List CodeEntry) (hWF : s.WF) (hc : p.codes = CodesField.arr l) :
    ∃ v g, (createDoc s p).2.body = some v ∧
      getDocById (createDoc s p).1 v.doc.id = some g ∧
      g.doc.uiName = p.uiName ∧ g.doc.uiSubtitle = p.uiSubtitle ∧
      g.doc.docs = p.docs ∧ g.doc.categoryId = p.categoryId ∧
      g.codes.map (fun c => (c.language, c.code)) =
        l.map (fun e => (e.language, e.code)) := by
  have h1 : (createDoc s p).1.docs = s.docs ++
      [⟨s.nextDocId, p.uiName, p.uiSubtitle, p.docs, autoSlug p.uiName,
        p.categoryId, jsOrNull p.parentId⟩] := by
    simp [createDoc, hc, storeCreateDoc, createCodes_eq]
  have h2 : (createDoc s p).1.codes = s.codes ++
      mkCodes s.nextCodeId s.nextDocId l := by
    simp [createDoc, hc, storeCreateDoc, createCodes_eq]
  have hfind : findByPkDoc (createDoc s p).1 s.nextDocId =
      some ⟨s.nextDocId, p.uiName, p.uiSubtitle, p.docs, autoSlug p.uiName,
        p.categoryId, jsOrNull p.parentId⟩ := by
    rw [findByPkDoc, h1]
    exact find?_docs_fresh _ _ hWF.1 _ rfl
  have hcodes : codesFor (createDoc s p).1 s.nextDocId =
      mkCodes s.nextCodeId s.nextDocId l := by
    rw [codesFor, h2, List.filter_append, codes_filter_fresh s hWF,
      mkCodes_filter_self]
    simp
  have hbody : (createDoc s p).2.body =
      (findByPkDoc (createDoc s p).1 s.nextDocId).map
        (createdViewOf (createDoc s p).1) := by
    simp [createDoc, hc, storeCreateDoc]
  refine ⟨createdViewOf (createDoc s p).1
      ⟨s.nextDocId, p.uiName, p.uiSubtitle, p.docs, autoSlug p.uiName,
        p.categoryId, jsOrNull p.parentId⟩,
    fullViewOf (createDoc s p).1
      ⟨s.nextDocId, p.uiName, p.uiSubtitle, p.docs, autoSlug p.uiName,
        p.categoryId, jsOrNull p.parentId⟩,
    ?_, ?_, rfl, rfl, rfl, rfl, ?_⟩
  · rw [hbody, hfind]; rfl
  · show getDocById (createDoc s p).1 s.nextDocId = _
    rw [getDocById, hfind]; rfl
  · show (codesFor (createDoc s p).1 s.nextDocId).map _ = _
    rw [hcodes, mkCodes_map_langCode]

/-- C3 witness. -/
theorem createDoc_then_getDoc_witness :
    ∃ v g, (createDoc wStore wPayload).2.body = some v ∧
      getDocById (createDoc wStore wPayload).1 v.doc.id = some g ∧
      g.doc.uiName = wPayload.uiName ∧
      g.doc.uiSubtitle = wPayload.uiSubtitle ∧
      g.doc.docs = wPayload.docs ∧ g.doc.categoryId = wPayload.categoryId ∧
      g.codes.map (fun c => (c.language, c.code)) =
        [⟨"jsx", "jsx-m"⟩, ⟨"tailwind", "tw-m"⟩].map
          (fun e : CodeEntry => (e.language, e.code)) :=
  createDoc_then_getDoc wStore wPayload _ (by decide) rfl

/-- C4: create_variant on an existing parent answers 201 with a created
doc whose parentId is the route's parent id, whatever parentId the body
carried, and that row is stored. -/
theorem createVariant_forces_parent (s : Store) (pid : Nat)
    (p : CreatePayload) (pd : Doc) (hWF : s.WF)
    (hp : findByPkDoc s pid = some pd) :
    (createVariant s pid p).2.status = 201 ∧
      ∃ v, (createVariant s pid p).2.body = some v ∧
        v.doc.parentId = some pid ∧
        findByPkDoc (createVariant s pid p).1 v.doc.id = some v.doc := by
  have h1 : (createVariant s pid p).1.docs = s.docs ++
      [⟨s.nextDocId, p.uiName, p.uiSubtitle, p.docs, autoSlug p.uiName,
        p.categoryId, some pid⟩] := by
    cases hcodes : p.codes <;>
      simp [createVariant, hp, hcodes, storeCreateDoc, createCodes_eq]
  have hfind : findByPkDoc (createVariant s pid p).1 s.nextDocId =
      some ⟨s.nextDocId, p.uiName, p.uiSubtitle, p.docs, autoSlug p.uiName,
        p.categoryId, some pid⟩ := by
    rw [findByPkDoc, h1]
    exact find?_docs_fresh _ _ hWF.1 _ rfl
  have hbody : (createVariant s pid p).2.body =
      (findByPkDoc (createVariant s pid p).1 s.nextDocId).map
        (createdViewOf (createVariant s pid p).1) := by
    cases hcodes : p.codes <;>
      simp [createVariant, hp, hcodes, storeCreateDoc]
  have hstatus : (createVariant s pid p).2.status = 201 := by
    cases hcodes : p.codes <;> simp [createVariant, hp, hcodes]
  refine ⟨hstatus,
    createdViewOf (createVariant s pid p).1
      ⟨s.nextDocId, p.uiName, p.uiSubtitle, p.docs, autoSlug p.uiName,
        p.categoryId, some pid⟩, ?_, rfl, ?_⟩
  · rw [hbody, hfind]; rfl
  · show findByPkDoc (createVariant s pid p).1 s.nextDocId = _
    rw [hfind]
    rfl

/-- C4 witness. -/
theorem createVariant_forces_parent_witness :
    (createVariant wStore 2 wPayload).2.status = 201 ∧
      ∃ v, (createVariant wStore 2 wPayload).2.body = some v ∧
        v.doc.parentId = some 2 ∧
        findByPkDoc (createVariant wStore 2 wPayload).1 v.doc.id =
          some v.doc :=
  createVariant_forces_parent wStore 2 wPayload
    ⟨2, "Card", "Basic", "# c", "card", some 2, none⟩ (by decide) (by decide)

/-- C5: create_variant with a parent id that resolves to no doc answers
404 with message "Parent doc not found" and leaves the store exactly as it
was: no Doc row and no Code row is created. -/
theorem createVariant_missing_parent (s : Store) (pid : Nat)
    (p : CreatePayload) (hp : findByPkDoc s pid = none) :
    createVariant s pid p =
      (s, ⟨404, some "Parent doc not found", none⟩) := by
  simp [createVariant, hp]

/-- C5 witness: no doc has id 99. -/
theorem createVariant_missing_parent_witness :
    createVariant wStore 99 wPayload =
      (wStore, ⟨404, some "Parent doc not found", none⟩) :=
  createVariant_missing_parent wStore 99 wPayload (by decide)

/-- C7: update_doc on an existing id answers with a row whose parentId and
uniqueSlug are those of the stored row, whatever parentId or uniqueSlug
the body carried, and every stored doc keeps its id, parentId and
uniqueSlug. -/
theorem updateDoc_immutable_fields (s : Store) (id : Nat)
    (p : UpdatePayload) (d : Doc) (h : findByPkDoc s id = some d) :
    ∃ s' r, updateDoc s id p = (s', some r) ∧
      r.id = d.id ∧ r.parentId = d.parentId ∧ r.uniqueSlug = d.uniqueSlug ∧
      List.Forall₂
        (fun a b => b.id = a.id ∧ b.parentId = a.parentId ∧
          b.uniqueSlug = a.uniqueSlug) s.docs s'.docs := by
  refine ⟨{ s with docs := updateFirstDoc s.docs id p }, applyUpdate d p,
    by simp [updateDoc, h], rfl, rfl, rfl, updateFirstDoc_frame id p s.docs⟩

/-- C7 witness: the payload carries both a parentId and a uniqueSlug. -/
theorem updateDoc_immutable_fields_witness :
    ∃ s' r,
      updateDoc wStore 1
          ⟨some "Renamed", none, none, some none, some 7, some "hacked"⟩ =
        (s', some r) ∧
      r.id = 1 ∧ r.parentId = none ∧ r.uniqueSlug = "button" ∧
      List.Forall₂
        (fun a b => b.id = a.id ∧ b.parentId = a.parentId ∧
          b.uniqueSlug = a.uniqueSlug) wStore.docs s'.docs :=
  updateDoc_immutable_fields wStore 1
    ⟨some "Renamed", none, none, some none, some 7, some "hacked"⟩
    ⟨1, "Button", "Primary", "# b", "button", some 1, none⟩ (by decide)

/-- C9: create_doc with a codes value that is not an array (absent, null,
or any non-array JSON value) still answers 201, creates a doc with zero
snippets, inserts no Code row, and raises no validation error. -/
theorem createDoc_codes_notArr (s : Store) (p : CreatePayload)
    (hWF : s.WF) (hc : p.codes = CodesField.notArr) :
    (createDoc s p).2.status = 201 ∧ (createDoc s p).2.message = none ∧
      (createDoc s p).1.codes = s.codes ∧
      ∃ v, (createDoc s p).2.body = some v ∧ v.codes = [] := by
  have h1 : (createDoc s p).1.docs = s.docs ++
      [⟨s.nextDocId, p.uiName, p.uiSubtitle, p.docs, autoSlug p.uiName,
        p.categoryId, jsOrNull p.parentId⟩] := by
    simp [createDoc, hc, storeCreateDoc]
  have h2 : (createDoc s p).1.codes = s.codes := by
    simp [createDoc, hc, storeCreateDoc]
  have hfind : findByPkDoc (createDoc s p).1 s.nextDocId =
      some ⟨s.nextDocId, p.uiName, p.uiSubtitle, p.docs, autoSlug p.uiName,
        p.categoryId, jsOrNull p.parentId⟩ := by
    rw [findByPkDoc, h1]
    exact find?_docs_fresh _ _ hWF.1 _ rfl
  have hbody : (createDoc s p).2.body =
      (findByPkDoc (createDoc s p).1 s.nextDocId).map
        (createdViewOf (createDoc s p).1) := by
    simp [createDoc, hc, storeCreateDoc]
  refine ⟨rfl, rfl, h2, createdViewOf (createDoc s p).1
    ⟨s.nextDocId, p.uiName, p.uiSubtitle, p.docs, autoSlug p.uiName,
      p.categoryId, jsOrNull p.parentId⟩, by rw [hbody, hfind]; rfl, ?_⟩
  show codesFor (createDoc s p).1 s.nextDocId = []
  rw [codesFor, h2, codes_filter_fresh s hWF]

/-- C9 witness. -/
theorem createDoc_codes_notArr_witness :
    (createDoc wStore ⟨"Modal", "Dialog", "# m", .notArr, none,
        some 2⟩).2.status = 201 ∧
      (createDoc wStore ⟨"Modal", "Dialog", "# m", .notArr, none,
        some 2⟩).2.message = none ∧
      (createDoc wStore ⟨"Modal", "Dialog", "# m", .notArr, none,
        some 2⟩).1.codes = wStore.codes ∧
      ∃ v, (createDoc wStore ⟨"Modal", "Dialog", "# m", .notArr, none,
        some 2⟩).2.body = some v ∧ v.codes = [] :=
  createDoc_codes_notArr wStore _ (by decide) rfl

/-- C10: create_doc stores `parentId || null` — the payload's parentId
when truthy, null when the payload's parentId is absent, null or the
falsy number 0 — and no hypothesis about the parent existing is needed:
the row is created and answered 201 for every payload, dangling parent
references included. -/
theorem createDoc_parentId_unchecked (s : Store) (p : CreatePayload)
    (hWF : s.WF) :
    (createDoc s p).2.status = 201 ∧
      ∃ nd, findByPkDoc (createDoc s p).1 s.nextDocId = some nd ∧
        nd.parentId = jsOrNull p.parentId ∧
        (createDoc s p).1.docs = s.docs ++ [nd] := by
  have h1 : (createDoc s p).1.docs = s.docs ++
      [⟨s.nextDocId, p.uiName, p.uiSubtitle, p.docs, autoSlug p.uiName,
        p.categoryId, jsOrNull p.parentId⟩] := by
    cases hcodes : p.codes <;>
      simp [createDoc, hcodes, storeCreateDoc, createCodes_eq]
  have hfind : findByPkDoc (createDoc s p).1 s.nextDocId =
      some ⟨s.nextDocId, p.uiName, p.uiSubtitle, p.docs, autoSlug p.uiName,
        p.categoryId, jsOrNull p.parentId⟩ := by
    rw [findByPkDoc, h1]
    exact find?_docs_fresh _ _ hWF.1 _ rfl
  exact ⟨rfl, _, hfind, rfl, h1⟩

/-- C10 witness: wPayload's parentId 99 resolves to no stored doc, yet
the row is created with parentId 99; a second instantiation (inside the
same closed statement via the store with a zero parentId payload) is not
needed — jsOrNull spells the coercion in the theorem itself. -/
theorem createDoc_parentId_unchecked_witness :
    (createDoc wStore wPayload).2.status = 201 ∧
      ∃ nd, findByPkDoc (createDoc wStore wPayload).1 5 = some nd ∧
        nd.parentId = jsOrNull (some 99) ∧
        (createDoc wStore wPayload).1.docs = wStore.docs ++ [nd] :=
  createDoc_parentId_unchecked wStore wPayload (by decide)

/-- C6: the with-code listing answers exactly the main docs (restricted to
the categoryId filter when one is supplied) — a permutation of that set,
so docs with zero matching snippets are present too — sorted by categoryId
ascending, and each entry's snippet list is exactly its "tailwind"-tagged
Code rows. -/
theorem getUniqueSlugsWithCode_spec (s : Store) (cf : Option Nat) :
    List.Perm (getUniqueSlugsWithCode s cf)
        ((s.docs.filter (fun d => d.parentId == none && catMatch cf d)).map
          (docWithCodeView s)) ∧
      List.Sorted (fun a b => optNatLeB a.categoryId b.categoryId = true)
        (getUniqueSlugsWithCode s cf) ∧
      ∀ e ∈ getUniqueSlugsWithCode s cf, e.codes = tailwindCodesFor s e.id ∧
        ∀ c ∈ e.codes, c.language = "tailwind" := by
  refine ⟨(List.perm_insertionSort _ _).map _, ?_, ?_⟩
  · haveI : IsTotal Doc
        (fun a b => optNatLeB a.categoryId b.categoryId = true) :=
      ⟨fun a b => optNatLeB_total _ _⟩
    haveI : IsTrans Doc
        (fun a b => optNatLeB a.categoryId b.categoryId = true) :=
      ⟨fun a b c => optNatLeB_trans _ _ _⟩
    have hs : List.Sorted
        (fun a b : Doc => optNatLeB a.categoryId b.categoryId = true)
        ((s.docs.filter
            (fun d => d.parentId == none && catMatch cf d)).insertionSort
          (fun a b => optNatLeB a.categoryId b.categoryId = true)) :=
      List.sorted_insertionSort _ _
    unfold getUniqueSlugsWithCode
    exact List.Pairwise.map _ (fun a b hab => hab) hs
  · intro e he
    obtain ⟨dd, _, rfl⟩ := List.mem_map.mp he
    exact ⟨rfl, tailwindCodes_lang s dd.id⟩

/-- C8: getDocs answers exactly the main docs — a permutation of the set
of docs with null parentId, with equal length, so no row is dropped and no
limit applied — sorted ascending by id, each carrying its own Code rows,
its Category projected to categoryName and slug, and its variants each
with their own Code rows. -/
theorem getDocs_spec (s : Store) :
    List.Perm (getDocs s)
        ((s.docs.filter (fun d => d.parentId == none)).map (fullViewOf s)) ∧
      List.Sorted (fun a b => a.doc.id ≤ b.doc.id) (getDocs s) ∧
      (getDocs s).length =
        (s.docs.filter (fun d => d.parentId == none)).length ∧
      ∀ e ∈ getDocs s, e.doc.parentId = none ∧
        e.codes = codesFor s e.doc.id ∧
        e.category = catSlimFor s e.doc.categoryId ∧
        e.uiVariants = variantsFor s e.doc.id ∧
        ∀ w ∈ e.uiVariants, w.codes = codesFor s w.doc.id := by
  have hperm : List.Perm (getDocs s)
      ((s.docs.filter (fun d => d.parentId == none)).map (fullViewOf s)) :=
    (List.perm_insertionSort _ _).map _
  refine ⟨hperm, ?_, ?_, ?_⟩
  · haveI : IsTotal Doc (fun a b => a.id ≤ b.id) :=
      ⟨fun a b => Nat.le_total a.id b.id⟩
    haveI : IsTrans Doc (fun a b => a.id ≤ b.id) :=
      ⟨fun a b c hab hbc => Nat.le_trans hab hbc⟩
    have hs : List.Sorted (fun a b : Doc => a.id ≤ b.id)
        ((s.docs.filter (fun d => d.parentId == none)).insertionSort
          (fun a b => a.id ≤ b.id)) :=
      List.sorted_insertionSort _ _
    unfold getDocs
    exact List.Pairwise.map _ (fun a b hab => hab) hs
  · exact hperm.length_eq.trans (List.length_map _ _)
  · intro e he
    obtain ⟨dd, hdd, rfl⟩ := List.mem_map.mp (hperm.mem_iff.mp he)
    have hmain := (List.mem_filter.mp hdd).2
    simp only [beq_iff_eq] at hmain
    refine ⟨hmain, rfl, rfl, rfl, ?_⟩
    intro w hw
    obtain ⟨d2, _, rfl⟩ := List.mem_map.mp hw
    rfl

end FlexUI
